import Mathlib

/-!
Shallow embedding of the core of `scrape_levels.py` (LinkedIn Queens puzzle
scraper): the structural extractor `html_to_json`, the matrix converter
`convert_puzzle`, the acquisition-orchestrator loop of `download_puzzle`,
and the missing-level reconciliation `read_missing_levels`, together with
theorems settling the specification claims about them.
-/

namespace Scrape

/-- Cell record produced by `html_to_json` for one grid square:
the dict `{'row': int, 'col': int, 'color': str, 'borders': [str]}`. -/
structure Cell where
  row : Int
  col : Int
  color : String
  borders : List String
deriving DecidableEq

/-- Matrix entry `[color_num, state]` of the converted puzzle. -/
abbrev Entry := Nat × Int

/-- Puzzle matrix: a list of rows of entries. -/
abbrev Matrix := List (List Entry)

/-- Python list-index semantics for `lst[i]` and `lst[i] = v`: a negative
index counts from the end, an index out of `[-n, n)` raises `IndexError`
(modelled as `none`). -/
def pyIdx (i : Int) (n : Nat) : Option Nat :=
  if 0 ≤ i then
    if i < (n : Int) then some i.toNat else none
  else
    if 0 ≤ (n : Int) + i then some ((n : Int) + i).toNat else none

/-- Python `row[j] = v` on one matrix row. -/
def pySetRow (row : List Entry) (j : Int) (v : Entry) : Option (List Entry) :=
  match pyIdx j row.length with
  | some jn => some (row.set jn v)
  | none => none

/-- Python `matrix[i][j] = v`: index the row (negative indices wrap,
out-of-range raises), then assign within it. -/
def pySetMat (m : Matrix) (i j : Int) (v : Entry) : Option Matrix :=
  match pyIdx i m.length with
  | some ik =>
    match m[ik]? with
    | some row =>
      match pySetRow row j v with
      | some row2 => some (m.set ik row2)
      | none => none
    | none => none
  | none => none

/-- State of the single scan loop of `convert_puzzle` (source lines 76-90):
running row/column maxima (initialised to 0) and the distinct color tokens
in first-seen order. -/
structure ScanState where
  max_row : Int
  max_col : Int
  unique_colors : List String
deriving DecidableEq

/-- Loop body of the scan (source lines 80-90). -/
def scanStep (s : ScanState) (c : Cell) : ScanState :=
  { max_row := if c.row > s.max_row then c.row else s.max_row
    max_col := if c.col > s.max_col then c.col else s.max_col
    unique_colors :=
      if c.color ∈ s.unique_colors then s.unique_colors
      else s.unique_colors ++ [c.color] }

/-- Single pass over the cells finding dimensions and unique colors. -/
def scanCells (cells : List Cell) : ScanState :=
  cells.foldl scanStep ⟨0, 0, []⟩

/-- Lookup in a Python `dict` modelled as an association list (the source
only builds dicts with distinct keys, so first match wins is exact). -/
def dlookup (t : String) : List (String × Nat) → Option Nat
  | [] => none
  | (s, v) :: rest => if s = t then some v else dlookup t rest

/-- Matrix-filling loop of `convert_puzzle` (source lines 101-102):
`matrix[cell['row']][cell['col']] = [color_map[cell['color']], 0]`, with
Python `KeyError` / `IndexError` surfacing as `Except.error`. -/
def writeCells (cmap : List (String × Nat)) : List Cell → Matrix → Except String Matrix
  | [], m => .ok m
  | c :: rest, m =>
    match dlookup c.color cmap with
    | none => .error "KeyError"
    | some v =>
      match pySetMat m c.row c.col (v, 0) with
      | some m2 => writeCells cmap rest m2
      | none => .error "IndexError"

/-- Result of `convert_puzzle`: the dict `{"matrix": ..., "color_map": ...}`. -/
structure Puzzle where
  matrix : Matrix
  color_map : List (String × Nat)
deriving DecidableEq

/-- Model of `convert_puzzle` (source lines 62-107). The parameter `perm`
stands for the value drawn by `random.sample(range(1, num_colors + 1),
num_colors)`; every value that call can return is a permutation of
`[1..num_colors]`, which the theorems hypothesise where needed. -/
def convert_puzzle (perm : List Nat) (json_data : List Cell) : Except String Puzzle :=
  if json_data.isEmpty then .ok ⟨[], []⟩
  else
    let s := scanCells json_data
    let color_map := s.unique_colors.zip perm
    let rows := (s.max_row + 1).toNat
    let cols := (s.max_col + 1).toNat
    let matrix0 := List.replicate rows (List.replicate cols ((0 : Nat), (0 : Int)))
    (writeCells color_map json_data matrix0).map (fun m => ⟨m, color_map⟩)

/-! Structural extractor `html_to_json` (source lines 43-59). The raw markup
is modelled after parsing: a list of elements as BeautifulSoup sees them. -/

/-- Element of the parsed markup: tag name, class list and attributes
(`style`, `data-row`, `data-col`, ...). -/
structure Element where
  tag : String
  classes : List String
  attrs : List (String × String)
deriving DecidableEq

/-- Attribute lookup, `div.get(name)`. -/
def getAttr (e : Element) (name : String) : Option String :=
  go e.attrs
where
  go : List (String × String) → Option String
    | [] => none
    | (k, v) :: rest => if k = name then some v else go rest

/-- Strip of leading and trailing whitespace, Python `str.strip()`. -/
def trimChars (cs : List Char) : List Char :=
  ((cs.dropWhile Char.isWhitespace).reverse.dropWhile Char.isWhitespace).reverse

/-- Body of a Python integer literal: digits with single underscores
allowed strictly between digits. -/
def digitsOk : List Char → Bool
  | [] => false
  | [c] => c.isDigit
  | c :: '_' :: rest => c.isDigit && digitsOk rest
  | c :: rest => c.isDigit && digitsOk rest

/-- Numeric value of a digit string, underscores skipped. -/
def digitsVal (cs : List Char) : Nat :=
  cs.foldl (fun n c => if c = '_' then n else n * 10 + (c.toNat - '0'.toNat)) 0

/-- Python `int(s)` on a string: optional surrounding whitespace, optional
sign, then a digit run; anything else raises `ValueError`. -/
def pyInt (s : String) : Except String Int :=
  match trimChars s.data with
  | '+' :: rest =>
    if digitsOk rest then .ok (digitsVal rest)
    else .error ("invalid literal for int() with base 10: " ++ s)
  | '-' :: rest =>
    if digitsOk rest then .ok (-(digitsVal rest : Int))
    else .error ("invalid literal for int() with base 10: " ++ s)
  | rest =>
    if digitsOk rest then .ok (digitsVal rest)
    else .error ("invalid literal for int() with base 10: " ++ s)

/-- Reading of `int(div.get('data-row', -1))`: the `-1` default applies only
when the attribute is absent; a present attribute value goes through
`int(...)` and may raise. -/
def readCoord (e : Element) (attr : String) : Except String Int :=
  match getAttr e attr with
  | none => .ok (-1)
  | some s => pyInt s

/-- Literal match of a pattern at the head, returning the rest. -/
def matchLit : List Char → List Char → Option (List Char)
  | [], cs => some cs
  | _, [] => none
  | p :: ps, c :: cs => if c = p then matchLit ps cs else none

/-- Attempt of `background-color\s*:\s*([^;]+)` anchored at this position,
returning `group(1).strip()` on a match. When the `[^;]+` group would start
at `;` the regex backtracks into the preceding `\s*`, so the stripped group
is empty whenever at least one whitespace character followed the colon. -/
def matchBgAt (cs : List Char) : Option String :=
  match matchLit "background-color".data cs with
  | none => none
  | some r1 =>
    match r1.dropWhile Char.isWhitespace with
    | ':' :: r2 =>
      let ws := r2.takeWhile Char.isWhitespace
      let r3 := r2.dropWhile Char.isWhitespace
      let t := r3.takeWhile (fun c => c ≠ ';')
      if t ≠ [] then some (String.mk (trimChars t))
      else if ws ≠ [] then some ""
      else none
    | _ => none

/-- Left-to-right scan of `re.search`. -/
def searchBg : List Char → Option String
  | [] => none
  | c :: cs =>
    match matchBgAt (c :: cs) with
    | some r => some r
    | none => searchBg cs

/-- Color extraction from the inline style (source lines 54-55):
`re.search(r"background-color\s*:\s*([^;]+)", style)` then
`m.group(1).strip() if m else ''`. -/
def extractColor (style : String) : String :=
  match searchBg style.data with
  | some c => c
  | none => ""

/-- Check that a pattern occurs at the head of the text. -/
def beginsWith : List Char → List Char → Bool
  | [], _ => true
  | _, [] => false
  | p :: ps, c :: cs => p = c && beginsWith ps cs

/-- Python substring test `needle in hay`. -/
def containsSub (needle : List Char) : List Char → Bool
  | [] => needle.isEmpty
  | c :: cs => beginsWith needle (c :: cs) || containsSub needle cs

/-- One iteration of the extraction loop (source lines 50-58). -/
def extractCell (e : Element) : Except String Cell := do
  let row ← readCoord e "data-row"
  let col ← readCoord e "data-col"
  let style := (getAttr e "style").getD ""
  let color := extractColor style
  let borders := e.classes.filter (fun cls => containsSub "thick-border".data cls.data)
  return ⟨row, col, color, borders⟩

/-- Model of `html_to_json` (source lines 43-59): every element matching the
selector `div.square`, one cell record each, in document order; a failing
`int()` raises out of the whole call. -/
def html_to_json (elems : List Element) : Except String (List Cell) :=
  (elems.filter (fun e => e.tag == "div" && e.classes.contains "square")).mapM extractCell

/-! Acquisition orchestrator: the level loop of `download_puzzle`
(source lines 153-247). -/

/-- Outcome of the fetch/extract stage of one loop iteration (source lines
178-197), abstracting the external browser and filesystem collaborators:
`exn reason` is any raised exception (transport, rendering, file I/O or
extraction failure), `noContainer` means both grid selectors matched
nothing, `ok cells` means markup was fetched and extracted to cell
records. -/
inductive FetchOutcome where
  | exn (reason : String)
  | noContainer
  | ok (cells : List Cell)

/-- Mutable state of the loop: `successes`, `failures`, `index_rows` and the
in-memory pickle mapping. -/
structure RunState where
  successes : List Nat
  failures : List (Nat × String)
  index_rows : List (Nat × String × String × String)
  pickle_data : List (Nat × Puzzle)
deriving DecidableEq

/-- Path `str(img_file)` staged into the index row (source line 193). -/
def imgPath (lvl : Nat) : String := "levels/pictures/puzzle" ++ toString lvl ++ ".png"

/-- Path `str(json_file)` staged into the index row (source line 200). -/
def jsonPath (lvl : Nat) : String := "levels/json/puzzle" ++ toString lvl ++ ".json"

/-- Grid-size descriptor (source lines 208-214): `"{max_row+1} by
{max_col+1}"` with the maxima over the extracted records, or the empty
string when there are no cells. -/
def sizeStrOf (cells : List Cell) : String :=
  match cells with
  | [] => ""
  | c :: rest =>
    let mr := rest.foldl (fun m d => max m d.row) c.row
    let mc := rest.foldl (fun m d => max m d.col) c.col
    toString (mr + 1) ++ " by " ++ toString (mc + 1)

/-- Python `dict` assignment `data[lvl] = v` on an insertion-ordered dict:
replace in place when the key exists, append otherwise. -/
def insertKey (l : List (Nat × Puzzle)) (k : Nat) (v : Puzzle) : List (Nat × Puzzle) :=
  match l with
  | [] => [(k, v)]
  | (k2, v2) :: rest => if k2 = k then (k, v) :: rest else (k2, v2) :: insertKey rest k v

/-- Key lookup in the pickle mapping. -/
def keyLookup (l : List (Nat × Puzzle)) (k : Nat) : Option Puzzle :=
  match l with
  | [] => none
  | (k2, v) :: rest => if k2 = k then some v else keyLookup rest k

/-- One iteration of the level loop (source lines 175-223): a raised
exception or a missing container records one failure and moves on; an
extracted puzzle is converted, staged into the pickle mapping, the index
rows and the success list. -/
def processLevel (fetch : Nat → FetchOutcome) (perm : Nat → List Nat)
    (st : RunState) (lvl : Nat) : RunState :=
  match fetch lvl with
  | .exn reason => { st with failures := st.failures ++ [(lvl, reason)] }
  | .noContainer => { st with failures := st.failures ++ [(lvl, "Puzzle container not found")] }
  | .ok cells =>
    match convert_puzzle (perm lvl) cells with
    | .error e => { st with failures := st.failures ++ [(lvl, e)] }
    | .ok pz =>
      { st with
        pickle_data := insertKey st.pickle_data lvl pz
        index_rows := st.index_rows ++ [(lvl, imgPath lvl, jsonPath lvl, sizeStrOf cells)]
        successes := st.successes ++ [lvl] }

/-- Result of a run, including whether the pickle store was written. -/
structure RunResult where
  successes : List Nat
  failures : List (Nat × String)
  index_rows : List (Nat × String × String × String)
  pickle_data : List (Nat × Puzzle)
  flushed : Bool
deriving DecidableEq

/-- Model of `download_puzzle` (source lines 153-247): fold the per-level
step over the work set starting from the loaded store, then flush the store
iff the merged mapping is non-empty (`if pickle_data:` on line 226). -/
def download_puzzle (fetch : Nat → FetchOutcome) (perm : Nat → List Nat)
    (initial_pickle : List (Nat × Puzzle)) (levels : List Nat) : RunResult :=
  let st := levels.foldl (processLevel fetch perm) ⟨[], [], [], initial_pickle⟩
  ⟨st.successes, st.failures, st.index_rows, st.pickle_data, !st.pickle_data.isEmpty⟩

/-- Whether the per-level step fails for a level: exception, missing
container, or a conversion error inside the `try`. -/
def stepFails (fetch : Nat → FetchOutcome) (perm : Nat → List Nat) (lvl : Nat) : Bool :=
  match fetch lvl with
  | .exn _ => true
  | .noContainer => true
  | .ok cells =>
    match convert_puzzle (perm lvl) cells with
    | .error _ => true
    | .ok _ => false

/-- Reason string recorded for a failing level. -/
def failReason (fetch : Nat → FetchOutcome) (perm : Nat → List Nat) (lvl : Nat) : String :=
  match fetch lvl with
  | .exn r => r
  | .noContainer => "Puzzle container not found"
  | .ok cells =>
    match convert_puzzle (perm lvl) cells with
    | .error e => e
    | .ok _ => ""

/-- Converted puzzle staged for a succeeding level. -/
def stepPuzzle (fetch : Nat → FetchOutcome) (perm : Nat → List Nat) (lvl : Nat) : Puzzle :=
  match fetch lvl with
  | .ok cells =>
    match convert_puzzle (perm lvl) cells with
    | .ok pz => pz
    | .error _ => ⟨[], []⟩
  | _ => ⟨[], []⟩

/-- Cells extracted for a level (empty for a failing fetch). -/
def stepCells (fetch : Nat → FetchOutcome) (lvl : Nat) : List Cell :=
  match fetch lvl with
  | .ok cells => cells
  | _ => []

/-- Fold of `dict` assignments over a list of staged entries. -/
def insertMany (d : List (Nat × Puzzle)) (items : List (Nat × Puzzle)) : List (Nat × Puzzle) :=
  items.foldl (fun acc p => insertKey acc p.1 p.2) d

/-! Reconciliation: `read_missing_levels` (source lines 281-294). -/

/-- Model of `read_missing_levels`: `existing = none` models a missing
`index.ssv` (download everything), `some ids` the identifiers read from its
rows; missing mode keeps the available levels not recorded there. -/
def read_missing_levels (existing : Option (List Nat)) (available : List Nat) : List Nat :=
  match existing with
  | none => available
  | some ex => available.filter (fun lvl => decide (lvl ∉ ex))

/-! Specification-side helper definitions used to state the claims. -/

/-- Rectangular matrix of the given dimensions. -/
def Rect (m : Matrix) (rows cols : Nat) : Prop :=
  m.length = rows ∧ ∀ r ∈ m, r.length = cols

/-- Entry of the matrix at a (non-negative) position. -/
def entryAt (m : Matrix) (i j : Nat) : Entry :=
  ((m[i]?.getD [])[j]?).getD (0, 0)

/-- Whether the assignment for a cell record targets position `(i, j)` of a
`rows × cols` matrix under Python index semantics. -/
def writesAt (rows cols : Nat) (c : Cell) (i j : Nat) : Bool :=
  decide (pyIdx c.row rows = some i) && decide (pyIdx c.col cols = some j)

/-- Last cell record in input order whose assignment targets `(i, j)`. -/
def lastWriterAt (cells : List Cell) (rows cols i j : Nat) : Option Cell :=
  (cells.filter (fun c => writesAt rows cols c i j)).getLast?

/-- Relabeling of one entry's color index. -/
def mapEntry (f : Nat → Nat) (e : Entry) : Entry := (f e.1, e.2)

/-- Relabeling of every entry of a matrix. -/
def mapMat (f : Nat → Nat) (m : Matrix) : Matrix := m.map (List.map (mapEntry f))

/-- Relabeling function between two color assignments: the element of `p2`
at the position `k` occupies in `p1`, the identity off `p1`. -/
def relabelOf (p1 p2 : List Nat) (k : Nat) : Nat :=
  match p1, p2 with
  | a :: p1', b :: p2' => if k = a then b else relabelOf p1' p2' k
  | _, _ => k

/-- First-seen-order deduplication fold, generalised over the accumulator. -/
def uniqAux (acc : List String) (l : List String) : List String :=
  l.foldl (fun a t => if t ∈ a then a else a ++ [t]) acc

/-- Maximum row over a non-empty record list (head plus rest). -/
def maxRowCells (c : Cell) (rest : List Cell) : Int :=
  rest.foldl (fun m d => max m d.row) c.row

/-- Maximum column over a non-empty record list (head plus rest). -/
def maxColCells (c : Cell) (rest : List Cell) : Int :=
  rest.foldl (fun m d => max m d.col) c.col

/-- Color map built by `convert_puzzle` for a cell list:
`dict(zip(unique_colors, random_numbers))`. -/
def cmapOf (perm : List Nat) (cells : List Cell) : List (String × Nat) :=
  (scanCells cells).unique_colors.zip perm

/-- Row count `max_row + 1` allocated by `convert_puzzle`. -/
def rowsOf (cells : List Cell) : Nat := ((scanCells cells).max_row + 1).toNat

/-- Column count `max_col + 1` allocated by `convert_puzzle`. -/
def colsOf (cells : List Cell) : Nat := ((scanCells cells).max_col + 1).toNat

/-- Zero-initialised matrix allocated by `convert_puzzle` (source line 99). -/
def initMatrix (cells : List Cell) : Matrix :=
  List.replicate (rowsOf cells) (List.replicate (colsOf cells) ((0 : Nat), (0 : Int)))

/-! Basic lemmas about the fold helpers. -/

theorem if_gt_eq_max (a b : Int) : (if b > a then b else a) = max a b := by
  rcases le_or_lt b a with h | h
  · rw [if_neg (not_lt.mpr h), max_eq_left h]
  · rw [if_pos h, max_eq_right h.le]

theorem le_foldl_max (l : List Int) (a : Int) : a ≤ l.foldl max a := by
  induction l generalizing a with
  | nil => exact le_refl a
  | cons x l ih => exact le_trans (le_max_left a x) (ih (max a x))

theorem mem_le_foldl_max (l : List Int) (a x : Int) (hx : x ∈ l) : x ≤ l.foldl max a := by
  induction l generalizing a with
  | nil => cases hx
  | cons y l ih =>
    rcases List.mem_cons.mp hx with h | h
    · subst h
      exact le_trans (le_max_right a x) (le_foldl_max l (max a x))
    · exact ih (max a y) h

theorem foldl_max_nonneg_head (r : Int) (rs : List Int) (h : 0 ≤ r) :
    List.foldl max 0 (r :: rs) = List.foldl max r rs := by
  simp only [List.foldl_cons, max_eq_right h]

/-! Components of the scan loop of `convert_puzzle`. -/

theorem scan_foldl_max_row (cells : List Cell) (st : ScanState) :
    (cells.foldl scanStep st).max_row = (cells.map Cell.row).foldl max st.max_row := by
  induction cells generalizing st with
  | nil => rfl
  | cons c cells ih =>
    simp only [List.foldl_cons, List.map_cons, ih, scanStep, if_gt_eq_max]

theorem scan_foldl_max_col (cells : List Cell) (st : ScanState) :
    (cells.foldl scanStep st).max_col = (cells.map Cell.col).foldl max st.max_col := by
  induction cells generalizing st with
  | nil => rfl
  | cons c cells ih =>
    simp only [List.foldl_cons, List.map_cons, ih, scanStep, if_gt_eq_max]

theorem scan_foldl_unique (cells : List Cell) (st : ScanState) :
    (cells.foldl scanStep st).unique_colors = uniqAux st.unique_colors (cells.map Cell.color) := by
  induction cells generalizing st with
  | nil => rfl
  | cons c cells ih =>
    simp only [List.foldl_cons, List.map_cons, ih, scanStep, uniqAux]

theorem scan_max_row (cells : List Cell) :
    (scanCells cells).max_row = (cells.map Cell.row).foldl max 0 :=
  scan_foldl_max_row cells ⟨0, 0, []⟩

theorem scan_max_col (cells : List Cell) :
    (scanCells cells).max_col = (cells.map Cell.col).foldl max 0 :=
  scan_foldl_max_col cells ⟨0, 0, []⟩

theorem scan_unique (cells : List Cell) :
    (scanCells cells).unique_colors = uniqAux [] (cells.map Cell.color) :=
  scan_foldl_unique cells ⟨0, 0, []⟩

theorem scan_max_row_nonneg (cells : List Cell) : 0 ≤ (scanCells cells).max_row := by
  rw [scan_max_row]; exact le_foldl_max _ 0

theorem scan_max_col_nonneg (cells : List Cell) : 0 ≤ (scanCells cells).max_col := by
  rw [scan_max_col]; exact le_foldl_max _ 0

theorem row_le_scan_max (cells : List Cell) (c : Cell) (hc : c ∈ cells) :
    c.row ≤ (scanCells cells).max_row := by
  rw [scan_max_row]
  exact mem_le_foldl_max _ 0 c.row (List.mem_map_of_mem Cell.row hc)

theorem col_le_scan_max (cells : List Cell) (c : Cell) (hc : c ∈ cells) :
    c.col ≤ (scanCells cells).max_col := by
  rw [scan_max_col]
  exact mem_le_foldl_max _ 0 c.col (List.mem_map_of_mem Cell.col hc)

theorem scan_max_row_of_nonneg (c : Cell) (rest : List Cell) (h : 0 ≤ c.row) :
    (scanCells (c :: rest)).max_row = maxRowCells c rest := by
  rw [scan_max_row, List.map_cons, foldl_max_nonneg_head c.row _ h, maxRowCells, List.foldl_map]

theorem scan_max_col_of_nonneg (c : Cell) (rest : List Cell) (h : 0 ≤ c.col) :
    (scanCells (c :: rest)).max_col = maxColCells c rest := by
  rw [scan_max_col, List.map_cons, foldl_max_nonneg_head c.col _ h, maxColCells, List.foldl_map]

/-! Lemmas about the first-seen deduplication. -/

theorem uniqAux_mem (l : List String) (acc : List String) (x : String) :
    x ∈ uniqAux acc l ↔ x ∈ acc ∨ x ∈ l := by
  induction l generalizing acc with
  | nil => simp [uniqAux]
  | cons t l ih =>
    by_cases ht : t ∈ acc
    · simp only [uniqAux, List.foldl_cons, if_pos ht]
      rw [show List.foldl (fun a t => if t ∈ a then a else a ++ [t]) acc l = uniqAux acc l from rfl,
        ih]
      constructor
      · rintro (h | h)
        · exact Or.inl h
        · exact Or.inr (List.mem_cons_of_mem t h)
      · rintro (h | h)
        · exact Or.inl h
        · rcases List.mem_cons.mp h with h | h
          · exact Or.inl (h ▸ ht)
          · exact Or.inr h
    · simp only [uniqAux, List.foldl_cons, if_neg ht]
      rw [show List.foldl (fun a t => if t ∈ a then a else a ++ [t]) (acc ++ [t]) l
          = uniqAux (acc ++ [t]) l from rfl, ih]
      simp only [List.mem_append, List.mem_singleton, List.mem_cons]
      tauto

theorem uniqAux_nodup (l : List String) (acc : List String) (hacc : acc.Nodup) :
    (uniqAux acc l).Nodup := by
  induction l generalizing acc with
  | nil => exact hacc
  | cons t l ih =>
    by_cases ht : t ∈ acc
    · simpa only [uniqAux, List.foldl_cons, if_pos ht] using ih acc hacc
    · have h2 : (acc ++ [t]).Nodup := by
        rw [List.nodup_append]
        exact ⟨hacc, List.nodup_singleton t, fun a ha hb => ht ((List.mem_singleton.mp hb) ▸ ha)⟩
      simpa only [uniqAux, List.foldl_cons, if_neg ht] using ih (acc ++ [t]) h2

theorem unique_colors_nodup (cells : List Cell) : (scanCells cells).unique_colors.Nodup := by
  rw [scan_unique]; exact uniqAux_nodup _ [] List.nodup_nil

theorem mem_unique_colors (cells : List Cell) (t : String) :
    t ∈ (scanCells cells).unique_colors ↔ t ∈ cells.map Cell.color := by
  rw [scan_unique, uniqAux_mem]
  simp

theorem color_mem_unique (cells : List Cell) (c : Cell) (hc : c ∈ cells) :
    c.color ∈ (scanCells cells).unique_colors :=
  (mem_unique_colors cells c.color).mpr (List.mem_map_of_mem Cell.color hc)

/-! Lemmas about `dict(zip(unique_colors, random_numbers))` lookups. -/

theorem dlookup_isSome (U : List String) (p : List Nat) (t : String)
    (ht : t ∈ U) (hlen : U.length ≤ p.length) :
    ∃ v, dlookup t (U.zip p) = some v := by
  induction U generalizing p with
  | nil => cases ht
  | cons u U ih =>
    match p with
    | [] => simp at hlen
    | a :: p =>
      by_cases hu : u = t
      · exact ⟨a, by simp [List.zip_cons_cons, dlookup, hu]⟩
      · have ht' : t ∈ U := by
          rcases List.mem_cons.mp ht with h | h
          · exact absurd h.symm hu
          · exact h
        simp only [List.zip_cons_cons, dlookup, if_neg hu]
        exact ih p ht' (by simpa using Nat.le_of_succ_le_succ hlen)

theorem dlookup_mem_snd (l : List (String × Nat)) (t : String) (v : Nat)
    (h : dlookup t l = some v) : v ∈ l.map Prod.snd := by
  induction l with
  | nil => simp [dlookup] at h
  | cons p l ih =>
    obtain ⟨s, w⟩ := p
    by_cases hs : s = t
    · simp only [dlookup, if_pos hs] at h
      simp [← Option.some_inj.mp h]
    · simp only [dlookup, if_neg hs] at h
      exact List.mem_cons_of_mem _ (ih h)

theorem dlookup_zip_inj (U : List String) (p : List Nat)
    (hU : U.Nodup) (hp : p.Nodup) (hlen : U.length = p.length)
    (t1 t2 : String) (v : Nat)
    (h1 : dlookup t1 (U.zip p) = some v) (h2 : dlookup t2 (U.zip p) = some v) :
    t1 = t2 := by
  induction U generalizing p with
  | nil => simp [dlookup] at h1
  | cons u U ih =>
    match p with
    | [] => simp at hlen
    | a :: p =>
      have hlen' : U.length = p.length := by simpa using hlen
      have hsnd : (U.zip p).map Prod.snd = p := List.map_snd_zip U p (le_of_eq hlen'.symm)
      by_cases hu1 : u = t1 <;> by_cases hu2 : u = t2
      · exact hu1.symm.trans hu2
      · simp only [List.zip_cons_cons, dlookup, if_pos hu1, if_neg hu2] at h1 h2
        have hva : v = a := (Option.some_inj.mp h1).symm
        have hvp : v ∈ p := by
          have h' := dlookup_mem_snd _ _ _ h2
          rw [show List.zipWith Prod.mk U p = U.zip p from rfl] at h'
          rwa [hsnd] at h'
        exact absurd (hva ▸ hvp) (List.nodup_cons.mp hp).1
      · simp only [List.zip_cons_cons, dlookup, if_neg hu1, if_pos hu2] at h1 h2
        have hva : v = a := (Option.some_inj.mp h2).symm
        have hvp : v ∈ p := by
          have h' := dlookup_mem_snd _ _ _ h1
          rw [show List.zipWith Prod.mk U p = U.zip p from rfl] at h'
          rwa [hsnd] at h'
        exact absurd (hva ▸ hvp) (List.nodup_cons.mp hp).1
      · simp only [List.zip_cons_cons, dlookup, if_neg hu1, if_neg hu2] at h1 h2
        exact ih p (List.nodup_cons.mp hU).2 (List.nodup_cons.mp hp).2 hlen' h1 h2

/-! Lemmas about the relabeling function between two color assignments. -/

theorem relab_not_mem (p1 p2 : List Nat) (k : Nat) (h : k ∉ p1) : relabelOf p1 p2 k = k := by
  induction p1 generalizing p2 with
  | nil => cases p2 <;> rfl
  | cons a p1 ih =>
    match p2 with
    | [] => rfl
    | b :: p2 =>
      have hka : k ≠ a := fun hk => h (hk ▸ List.mem_cons_self a p1)
      simp only [relabelOf, if_neg hka]
      exact ih p2 (fun hk => h (List.mem_cons_of_mem a hk))

theorem relab_mem (p1 p2 : List Nat) (k : Nat) (hk : k ∈ p1) (hlen : p1.length = p2.length) :
    relabelOf p1 p2 k ∈ p2 := by
  induction p1 generalizing p2 with
  | nil => cases hk
  | cons a p1 ih =>
    match p2 with
    | [] => simp at hlen
    | b :: p2 =>
      by_cases hka : k = a
      · simp only [relabelOf, if_pos hka]
        exact List.mem_cons_self b p2
      · simp only [relabelOf, if_neg hka]
        have hk' : k ∈ p1 := by
          rcases List.mem_cons.mp hk with h | h
          · exact absurd h hka
          · exact h
        exact List.mem_cons_of_mem b (ih p2 hk' (by simpa using hlen))

theorem relab_inj_on_mem (p1 p2 : List Nat) (h1 : p1.Nodup) (h2 : p2.Nodup)
    (hlen : p1.length = p2.length) (k1 k2 : Nat) (hk1 : k1 ∈ p1) (hk2 : k2 ∈ p1)
    (heq : relabelOf p1 p2 k1 = relabelOf p1 p2 k2) : k1 = k2 := by
  induction p1 generalizing p2 with
  | nil => cases hk1
  | cons a p1 ih =>
    match p2 with
    | [] => simp at hlen
    | b :: p2 =>
      have hlen' : p1.length = p2.length := by simpa using hlen
      by_cases ha1 : k1 = a <;> by_cases ha2 : k2 = a
      · exact ha1.trans ha2.symm
      · exfalso
        have hk2' : k2 ∈ p1 := by
          rcases List.mem_cons.mp hk2 with h | h
          · exact absurd h ha2
          · exact h
        simp only [relabelOf, if_pos ha1, if_neg ha2] at heq
        have : relabelOf p1 p2 k2 ∈ p2 := relab_mem p1 p2 k2 hk2' hlen'
        exact (List.nodup_cons.mp h2).1 (heq ▸ this)
      · exfalso
        have hk1' : k1 ∈ p1 := by
          rcases List.mem_cons.mp hk1 with h | h
          · exact absurd h ha1
          · exact h
        simp only [relabelOf, if_neg ha1, if_pos ha2] at heq
        have : relabelOf p1 p2 k1 ∈ p2 := relab_mem p1 p2 k1 hk1' hlen'
        exact (List.nodup_cons.mp h2).1 (heq ▸ this)
      · have hk1' : k1 ∈ p1 := by
          rcases List.mem_cons.mp hk1 with h | h
          · exact absurd h ha1
          · exact h
        have hk2' : k2 ∈ p1 := by
          rcases List.mem_cons.mp hk2 with h | h
          · exact absurd h ha2
          · exact h
        simp only [relabelOf, if_neg ha1, if_neg ha2] at heq
        exact ih p2 (List.nodup_cons.mp h1).2 (List.nodup_cons.mp h2).2 hlen' hk1' hk2' heq

theorem dlookup_zip_relab (U : List String) (p1 p2 : List Nat)
    (hp1 : p1.Nodup) (hl1 : U.length = p1.length) (hl2 : U.length = p2.length) (t : String) :
    dlookup t (U.zip p2) = (dlookup t (U.zip p1)).map (relabelOf p1 p2) := by
  induction U generalizing p1 p2 with
  | nil => rfl
  | cons u U ih =>
    match p1, p2 with
    | [], _ => simp at hl1
    | _ :: _, [] => simp at hl2
    | a :: p1, b :: p2 =>
      have hl1' : U.length = p1.length := by simpa using hl1
      have hl2' : U.length = p2.length := by simpa using hl2
      by_cases hu : u = t
      · simp [List.zip_cons_cons, dlookup, if_pos hu, relabelOf]
      · simp only [List.zip_cons_cons, dlookup, if_neg hu]
        rw [show List.zipWith Prod.mk U p2 = U.zip p2 from rfl,
          show List.zipWith Prod.mk U p1 = U.zip p1 from rfl,
          ih p1 p2 (List.nodup_cons.mp hp1).2 hl1' hl2']
        cases he : dlookup t (U.zip p1) with
        | none => rfl
        | some v =>
          have hv : v ∈ p1 := by
            have := dlookup_mem_snd _ _ _ he
            rwa [List.map_snd_zip U p1 (le_of_eq hl1'.symm)] at this
          have hva : v ≠ a := fun hva => (List.nodup_cons.mp hp1).1 (hva ▸ hv)
          simp [relabelOf, if_neg hva]

/-! Lemmas about Python index semantics and the assignment step. -/

theorem pyIdx_of_nonneg (i : Int) (n : Nat) (h0 : 0 ≤ i) (h : i < (n : Int)) :
    pyIdx i n = some i.toNat := by
  simp [pyIdx, h0, h]

theorem pyIdx_lt (i : Int) (n k : Nat) (h : pyIdx i n = some k) : k < n := by
  unfold pyIdx at h
  split_ifs at h with h1 h2 h3 <;> simp_all <;> omega

theorem pyIdx_nonneg_inv (i : Int) (n k : Nat) (h0 : 0 ≤ i) (h : pyIdx i n = some k) :
    (k : Int) = i := by
  unfold pyIdx at h
  split_ifs at h with h1 h2 h3 <;> simp_all <;> omega

theorem mem_of_getElem?_some {α : Type} (l : List α) (i : Nat) (a : α)
    (h : l[i]? = some a) : a ∈ l := by
  obtain ⟨hlt, rfl⟩ := List.getElem?_eq_some.mp h
  exact List.getElem_mem hlt

theorem pySetMat_eq (m : Matrix) (i j : Int) (v : Entry) (m2 : Matrix)
    (h : pySetMat m i j v = some m2) :
    ∃ ik jk row, pyIdx i m.length = some ik ∧ m[ik]? = some row ∧
      pyIdx j row.length = some jk ∧ m2 = m.set ik (row.set jk v) := by
  unfold pySetMat at h
  split at h
  case h_2 => exact absurd h (by simp)
  case h_1 ik hik =>
    split at h
    case h_2 => exact absurd h (by simp)
    case h_1 row hrow =>
      split at h
      case h_2 => exact absurd h (by simp)
      case h_1 row2 hrow2 =>
        unfold pySetRow at hrow2
        split at hrow2
        case h_2 => exact absurd hrow2 (by simp)
        case h_1 jk hjk =>
          exact ⟨ik, jk, row, hik, hrow, hjk, by
            rw [← Option.some_inj.mp h, Option.some_inj.mp hrow2]⟩

theorem pySetMat_rect (m : Matrix) (i j : Int) (v : Entry) (m2 : Matrix) (rows cols : Nat)
    (hm : Rect m rows cols) (h : pySetMat m i j v = some m2) : Rect m2 rows cols := by
  obtain ⟨ik, jk, row, hik, hrow, hjk, rfl⟩ := pySetMat_eq m i j v m2 h
  refine ⟨by rw [List.length_set]; exact hm.1, fun r hr => ?_⟩
  rcases List.mem_or_eq_of_mem_set hr with h' | h'
  · exact hm.2 r h'
  · subst h'
    rw [List.length_set]
    exact hm.2 row (mem_of_getElem?_some m ik row hrow)

theorem pySetMat_entry (m : Matrix) (i j : Int) (v : Entry) (m2 : Matrix) (rows cols : Nat)
    (hm : Rect m rows cols) (h : pySetMat m i j v = some m2)
    (a b : Nat) (ha : a < rows) (hb : b < cols) :
    entryAt m2 a b =
      if pyIdx i rows = some a ∧ pyIdx j cols = some b then v else entryAt m a b := by
  obtain ⟨ik, jk, row, hik, hrow, hjk, rfl⟩ := pySetMat_eq m i j v m2 h
  have hmlen : m.length = rows := hm.1
  have hrowlen : row.length = cols := hm.2 row (mem_of_getElem?_some m ik row hrow)
  rw [hmlen] at hik
  rw [hrowlen] at hjk
  have hikr : ik < rows := pyIdx_lt i rows ik hik
  have hjkc : jk < cols := pyIdx_lt j cols jk hjk
  unfold entryAt
  rw [List.getElem?_set]
  by_cases hia : ik = a
  · subst hia
    rw [if_pos rfl, if_pos (hmlen ▸ hikr), Option.getD_some, List.getElem?_set]
    by_cases hjb : jk = b
    · subst hjb
      rw [if_pos rfl, if_pos (hrowlen ▸ hjkc), Option.getD_some,
        if_pos ⟨hik, hjk⟩]
    · rw [if_neg hjb, if_neg (fun hc => hjb (Option.some_inj.mp (hjk ▸ hc.2)))]
      rw [hrow, Option.getD_some]
  · rw [if_neg hia, if_neg (fun hc => hia (Option.some_inj.mp (hik ▸ hc.1)))]

theorem pySetMat_isSome (m : Matrix) (i j : Int) (v : Entry) (rows cols : Nat)
    (hm : Rect m rows cols) (h0i : 0 ≤ i) (hi : i < (rows : Int))
    (h0j : 0 ≤ j) (hj : j < (cols : Int)) :
    ∃ m2, pySetMat m i j v = some m2 := by
  have hik : pyIdx i m.length = some i.toNat := by
    rw [hm.1]; exact pyIdx_of_nonneg i rows h0i hi
  have hlt : i.toNat < m.length := by rw [hm.1]; omega
  have hrow : m[i.toNat]? = some m[i.toNat] := List.getElem?_eq_getElem hlt
  have hrlen : m[i.toNat].length = cols := hm.2 _ (List.getElem_mem hlt)
  have hjk : pyIdx j m[i.toNat].length = some j.toNat := by
    rw [hrlen]; exact pyIdx_of_nonneg j cols h0j hj
  refine ⟨m.set i.toNat (m[i.toNat].set j.toNat v), ?_⟩
  unfold pySetMat pySetRow
  simp only [hik, hrow, hjk]

theorem writesAt_iff (rows cols : Nat) (c : Cell) (i j : Nat) :
    writesAt rows cols c i j = true ↔
      pyIdx c.row rows = some i ∧ pyIdx c.col cols = some j := by
  simp [writesAt]

/-! Lemmas about the matrix-filling loop. -/

theorem writeCells_ok (cmap : List (String × Nat)) (cells : List Cell) (rows cols : Nat) :
    ∀ m : Matrix, Rect m rows cols →
    (∀ c ∈ cells, (dlookup c.color cmap).isSome) →
    (∀ c ∈ cells, 0 ≤ c.row ∧ c.row < (rows : Int) ∧ 0 ≤ c.col ∧ c.col < (cols : Int)) →
    ∃ m2, writeCells cmap cells m = .ok m2 ∧ Rect m2 rows cols := by
  induction cells with
  | nil => exact fun m hm _ _ => ⟨m, rfl, hm⟩
  | cons c rest ih =>
    intro m hm hcl hcoord
    obtain ⟨v, hv⟩ := Option.isSome_iff_exists.mp (hcl c (List.mem_cons_self c rest))
    obtain ⟨h0r, hr, h0c, hc⟩ := hcoord c (List.mem_cons_self c rest)
    obtain ⟨m1, hm1⟩ := pySetMat_isSome m c.row c.col (v, 0) rows cols hm h0r hr h0c hc
    have hm1r : Rect m1 rows cols := pySetMat_rect m c.row c.col (v, 0) m1 rows cols hm hm1
    obtain ⟨m2, hw, hrect⟩ := ih m1 hm1r
      (fun d hd => hcl d (List.mem_cons_of_mem c hd))
      (fun d hd => hcoord d (List.mem_cons_of_mem c hd))
    refine ⟨m2, ?_, hrect⟩
    simp only [writeCells, hv, hm1]
    exact hw

theorem writeCells_last (cmap : List (String × Nat)) (cells : List Cell) (rows cols : Nat) :
    ∀ m m2 : Matrix, Rect m rows cols → writeCells cmap cells m = .ok m2 →
    Rect m2 rows cols
    ∧ (∀ i j, i < rows → j < cols → ∀ c0, lastWriterAt cells rows cols i j = some c0 →
        ∃ v, dlookup c0.color cmap = some v ∧ entryAt m2 i j = (v, 0))
    ∧ (∀ i j, i < rows → j < cols → lastWriterAt cells rows cols i j = none →
        entryAt m2 i j = entryAt m i j) := by
  induction cells with
  | nil =>
    intro m m2 hm h
    simp only [writeCells, Except.ok.injEq] at h
    subst h
    refine ⟨hm, fun i j _ _ c0 hc0 => ?_, fun i j _ _ _ => rfl⟩
    simp [lastWriterAt] at hc0
  | cons c rest ih =>
    intro m m2 hm h
    simp only [writeCells] at h
    split at h
    · exact absurd h (by simp)
    · rename_i v hv
      split at h
      case h_2 => exact absurd h (by simp)
      case h_1 m1 hpm =>
        have hm1 : Rect m1 rows cols := pySetMat_rect m c.row c.col (v, 0) m1 rows cols hm hpm
        obtain ⟨hrect, hsome, hnone⟩ := ih m1 m2 hm1 h
        refine ⟨hrect, ?_, ?_⟩
        · intro i j hi hj c0 hlast
          have hstep := pySetMat_entry m c.row c.col (v, 0) m1 rows cols hm hpm i j hi hj
          unfold lastWriterAt at hlast
          rw [List.filter_cons] at hlast
          by_cases hpc : writesAt rows cols c i j = true
          · rw [if_pos hpc] at hlast
            cases hfe : List.filter (fun d => writesAt rows cols d i j) rest with
            | nil =>
              rw [hfe] at hlast
              have hc0c : c0 = c := by
                simpa using hlast.symm
              subst hc0c
              have hrest_none : lastWriterAt rest rows cols i j = none := by
                unfold lastWriterAt
                rw [hfe]
                rfl
              have hent : entryAt m2 i j = entryAt m1 i j := hnone i j hi hj hrest_none
              refine ⟨v, hv, ?_⟩
              rw [hent, hstep, if_pos ((writesAt_iff rows cols c0 i j).mp hpc)]
            | cons x xs =>
              rw [hfe, List.getLast?_cons_cons] at hlast
              have hrest_some : lastWriterAt rest rows cols i j = some c0 := by
                unfold lastWriterAt
                rw [hfe, hlast]
              exact hsome i j hi hj c0 hrest_some
          · rw [if_neg hpc] at hlast
            exact hsome i j hi hj c0 hlast
        · intro i j hi hj hlast
          have hstep := pySetMat_entry m c.row c.col (v, 0) m1 rows cols hm hpm i j hi hj
          unfold lastWriterAt at hlast
          rw [List.filter_cons] at hlast
          by_cases hpc : writesAt rows cols c i j = true
          · exfalso
            rw [if_pos hpc] at hlast
            cases hfe : List.filter (fun d => writesAt rows cols d i j) rest with
            | nil => rw [hfe] at hlast; simp at hlast
            | cons x xs => rw [hfe, List.getLast?_cons_cons] at hlast
                           exact absurd hlast (by simp [List.getLast?_isSome.mpr])
          · rw [if_neg hpc] at hlast
            have hrest_none : lastWriterAt rest rows cols i j = none := hlast
            have hent : entryAt m2 i j = entryAt m1 i j := hnone i j hi hj hrest_none
            rw [hent, hstep, if_neg (fun hc => hpc ((writesAt_iff rows cols c i j).mpr hc))]

/-! Simulation of the filling loop under a relabeling of the color indices. -/

theorem pySetMat_map (f : Nat → Nat) (m : Matrix) (i j : Int) (v : Entry) :
    pySetMat (mapMat f m) i j (mapEntry f v) = (pySetMat m i j v).map (mapMat f) := by
  unfold pySetMat
  rw [show (mapMat f m).length = m.length from by simp [mapMat]]
  cases hik : pyIdx i m.length with
  | none => rfl
  | some ik =>
    simp only
    rw [show (mapMat f m)[ik]? = (m[ik]?).map (List.map (mapEntry f)) from by
      simp [mapMat, List.getElem?_map]]
    cases hrow : m[ik]? with
    | none => rfl
    | some row =>
      simp only [Option.map_some']
      unfold pySetRow
      rw [List.length_map]
      cases hjk : pyIdx j row.length with
      | none => rfl
      | some jk =>
        simp only [Option.map_some', ← List.map_set]
        rw [show List.set (mapMat f m) ik (List.map (mapEntry f) (row.set jk v))
            = mapMat f (m.set ik (row.set jk v)) from by simp [mapMat, ← List.map_set]]

theorem writeCells_sim (cmap1 cmap2 : List (String × Nat)) (f : Nat → Nat)
    (hcomp : ∀ t, dlookup t cmap2 = (dlookup t cmap1).map f) (cells : List Cell) :
    ∀ m m2 : Matrix, writeCells cmap1 cells m = .ok m2 →
      writeCells cmap2 cells (mapMat f m) = .ok (mapMat f m2) := by
  induction cells with
  | nil =>
    intro m m2 h
    simp only [writeCells, Except.ok.injEq] at h ⊢
    rw [h]
  | cons c rest ih =>
    intro m m2 h
    simp only [writeCells] at h
    split at h
    · exact absurd h (by simp)
    · rename_i v hv
      split at h
      case h_2 => exact absurd h (by simp)
      case h_1 m1 hpm =>
        have hv2 : dlookup c.color cmap2 = some (f v) := by
          rw [hcomp c.color, hv, Option.map_some']
        have hpm2 : pySetMat (mapMat f m) c.row c.col (f v, 0) = some (mapMat f m1) := by
          have hx := pySetMat_map f m c.row c.col (v, 0)
          rw [hpm] at hx
          simpa [mapEntry] using hx
        simp only [writeCells, hv2, hpm2]
        exact ih m1 m2 h

/-! Unfolding lemmas for `convert_puzzle` on non-empty input. -/

theorem convert_puzzle_eq (perm : List Nat) (cells : List Cell) (hne : cells ≠ []) :
    convert_puzzle perm cells =
      (writeCells (cmapOf perm cells) cells (initMatrix cells)).map
        (fun m => ⟨m, cmapOf perm cells⟩) := by
  unfold convert_puzzle
  rw [if_neg (by simpa [List.isEmpty_iff] using hne)]
  rfl

theorem convert_ok_parts (perm : List Nat) (cells : List Cell) (out : Puzzle)
    (hne : cells ≠ []) (hok : convert_puzzle perm cells = .ok out) :
    writeCells (cmapOf perm cells) cells (initMatrix cells) = .ok out.matrix
    ∧ out.color_map = cmapOf perm cells := by
  rw [convert_puzzle_eq perm cells hne] at hok
  cases hw : writeCells (cmapOf perm cells) cells (initMatrix cells) with
  | error e =>
    rw [hw] at hok
    exact absurd hok (by simp [Except.map])
  | ok m =>
    rw [hw] at hok
    have hm : Puzzle.mk m (cmapOf perm cells) = out := by
      simpa [Except.map] using hok
    rw [← hm]
    exact ⟨rfl, rfl⟩

theorem initMatrix_rect (cells : List Cell) :
    Rect (initMatrix cells) (rowsOf cells) (colsOf cells) := by
  refine ⟨by simp [initMatrix], fun r hr => ?_⟩
  rw [List.eq_of_mem_replicate hr]
  simp

theorem convert_ok_of_nonneg (perm : List Nat) (cells : List Cell) (hne : cells ≠ [])
    (hnn : ∀ c ∈ cells, 0 ≤ c.row ∧ 0 ≤ c.col)
    (hlen : (scanCells cells).unique_colors.length ≤ perm.length) :
    ∃ out, convert_puzzle perm cells = .ok out
      ∧ Rect out.matrix (rowsOf cells) (colsOf cells)
      ∧ out.color_map = cmapOf perm cells := by
  have hcl : ∀ c ∈ cells, (dlookup c.color (cmapOf perm cells)).isSome := by
    intro c hc
    obtain ⟨v, hv⟩ :=
      dlookup_isSome (scanCells cells).unique_colors perm c.color
        (color_mem_unique cells c hc) hlen
    simp [cmapOf, hv]
  have hcoord : ∀ c ∈ cells,
      0 ≤ c.row ∧ c.row < (rowsOf cells : Int) ∧ 0 ≤ c.col ∧ c.col < (colsOf cells : Int) := by
    intro c hc
    have h1 := row_le_scan_max cells c hc
    have h2 := col_le_scan_max cells c hc
    have h3 := scan_max_row_nonneg cells
    have h4 := scan_max_col_nonneg cells
    obtain ⟨hr0, hc0⟩ := hnn c hc
    refine ⟨hr0, ?_, hc0, ?_⟩
    · unfold rowsOf; omega
    · unfold colsOf; omega
  obtain ⟨m2, hw, hrect⟩ :=
    writeCells_ok (cmapOf perm cells) cells (rowsOf cells) (colsOf cells)
      (initMatrix cells) (initMatrix_rect cells) hcl hcoord
  refine ⟨⟨m2, cmapOf perm cells⟩, ?_, hrect, rfl⟩
  rw [convert_puzzle_eq perm cells hne, hw]
  rfl

theorem maxRowCells_eq (c0 : Cell) (rest : List Cell) :
    maxRowCells c0 rest = (rest.map Cell.row).foldl max c0.row := by
  rw [maxRowCells, List.foldl_map]

theorem maxColCells_eq (c0 : Cell) (rest : List Cell) :
    maxColCells c0 rest = (rest.map Cell.col).foldl max c0.col := by
  rw [maxColCells, List.foldl_map]

theorem writesAt_nonneg (cells : List Cell) (d : Cell) (hd : d ∈ cells)
    (h0r : 0 ≤ d.row) (h0c : 0 ≤ d.col) (i j : Nat) :
    writesAt (rowsOf cells) (colsOf cells) d i j = true ↔
      (d.row.toNat = i ∧ d.col.toNat = j) := by
  have hbr := row_le_scan_max cells d hd
  have hbc := col_le_scan_max cells d hd
  have hr : pyIdx d.row (rowsOf cells) = some d.row.toNat :=
    pyIdx_of_nonneg d.row (rowsOf cells) h0r (by unfold rowsOf; omega)
  have hc : pyIdx d.col (colsOf cells) = some d.col.toNat :=
    pyIdx_of_nonneg d.col (colsOf cells) h0c (by unfold colsOf; omega)
  simp [writesAt_iff, hr, hc]

/-! Claim theorems for the matrix converter. -/

/-- Claim C5: applied to the empty cell sequence, `convert_puzzle` returns a
matrix with 0 rows and 0 columns and an empty colorMap. -/
theorem convert_empty (perm : List Nat) :
    ∃ out, convert_puzzle perm [] = .ok out
      ∧ out.matrix.length = 0 ∧ out.color_map = [] :=
  ⟨⟨[], []⟩, rfl, rfl, rfl⟩

/-- Claim C3 (behavior at the failing input): on a cell whose extracted row is
the `-1` "absent attribute" default, `convert_puzzle` does not surface an
error; Python's negative indexing wraps, so the cell is silently written at
the wrapped position (the last row — here row 0 of the 1×1 matrix) and the
conversion returns successfully. -/
theorem convert_negative_row_no_error :
    convert_puzzle [1] [⟨-1, 0, "red", []⟩] = .ok ⟨[[(1, 0)]], [("red", 1)]⟩ := rfl

/-- Claim C4: for every non-empty cell sequence with non-negative coordinates
(and a color draw long enough for every distinct token), `convert_puzzle`
produces a rectangular matrix with exactly `max(row) + 1` rows and
`max(col) + 1` columns, the maxima ranging over the input records. -/
theorem convert_dims_eq_maxima (perm : List Nat) (c0 : Cell) (rest : List Cell)
    (hnn : ∀ c ∈ c0 :: rest, 0 ≤ c.row ∧ 0 ≤ c.col)
    (hlen : (scanCells (c0 :: rest)).unique_colors.length ≤ perm.length) :
    ∃ out, convert_puzzle perm (c0 :: rest) = .ok out
      ∧ (out.matrix.length : Int) = maxRowCells c0 rest + 1
      ∧ ∀ r ∈ out.matrix, (r.length : Int) = maxColCells c0 rest + 1 := by
  obtain ⟨out, hok, hrect, hcm⟩ :=
    convert_ok_of_nonneg perm (c0 :: rest) (by simp) hnn hlen
  have h0r := (hnn c0 (List.mem_cons_self c0 rest)).1
  have h0c := (hnn c0 (List.mem_cons_self c0 rest)).2
  have hmr0 : 0 ≤ maxRowCells c0 rest := by
    rw [maxRowCells_eq]; exact le_trans h0r (le_foldl_max _ _)
  have hmc0 : 0 ≤ maxColCells c0 rest := by
    rw [maxColCells_eq]; exact le_trans h0c (le_foldl_max _ _)
  refine ⟨out, hok, ?_, ?_⟩
  · rw [hrect.1]
    unfold rowsOf
    rw [scan_max_row_of_nonneg c0 rest h0r]
    omega
  · intro r hr
    rw [hrect.2 r hr]
    unfold colsOf
    rw [scan_max_col_of_nonneg c0 rest h0c]
    omega

/-- Witness for C4 at a concrete input: two cells spanning a 3 × 2 grid. -/
theorem convert_dims_eq_maxima_witness :
    (∀ c ∈ [Cell.mk 0 1 "a" [], Cell.mk 2 0 "b" []], 0 ≤ c.row ∧ 0 ≤ c.col)
    ∧ (scanCells [Cell.mk 0 1 "a" [], Cell.mk 2 0 "b" []]).unique_colors.length ≤
        [1, 2].length
    ∧ ∃ out, convert_puzzle [1, 2] [Cell.mk 0 1 "a" [], Cell.mk 2 0 "b" []] = .ok out
        ∧ (out.matrix.length : Int) = maxRowCells (Cell.mk 0 1 "a" []) [Cell.mk 2 0 "b" []] + 1
        ∧ ∀ r ∈ out.matrix,
            (r.length : Int) = maxColCells (Cell.mk 0 1 "a" []) [Cell.mk 2 0 "b" []] + 1 :=
  ⟨by decide, by decide,
    convert_dims_eq_maxima [1, 2] (Cell.mk 0 1 "a" []) [Cell.mk 2 0 "b" []]
      (by decide) (by decide)⟩

/-- Claim C6: for every non-empty cell sequence with `N` distinct color tokens
(the draw being a permutation of `1..N`, as `random.sample` guarantees), the
colorMap produced by `convert_puzzle` is a bijection from those `N` tokens onto
`1..N`: its keys are exactly the distinct tokens of the input, without
duplicates; its values are a permutation of `1..N`; and every colorIndex in
`1..N` is assigned to exactly one token. -/
theorem color_map_bijection (perm : List Nat) (cells : List Cell) (out : Puzzle)
    (hne : cells ≠ [])
    (hperm : perm.Perm (List.range' 1 (scanCells cells).unique_colors.length))
    (hok : convert_puzzle perm cells = .ok out) :
    (out.color_map.map Prod.fst).Nodup
    ∧ (∀ t, t ∈ out.color_map.map Prod.fst ↔ t ∈ cells.map Cell.color)
    ∧ (out.color_map.map Prod.snd).Perm
        (List.range' 1 (scanCells cells).unique_colors.length)
    ∧ ∀ k, 1 ≤ k → k ≤ (scanCells cells).unique_colors.length →
        (out.color_map.filter (fun p => p.2 == k)).length = 1 := by
  have hlen : perm.length = (scanCells cells).unique_colors.length := by
    rw [hperm.length_eq, List.length_range']
  have hcm : out.color_map = (scanCells cells).unique_colors.zip perm :=
    (convert_ok_parts perm cells out hne hok).2
  have hfst : out.color_map.map Prod.fst = (scanCells cells).unique_colors := by
    rw [hcm]
    exact List.map_fst_zip _ perm (le_of_eq hlen.symm)
  have hsnd : out.color_map.map Prod.snd = perm := by
    rw [hcm]
    exact List.map_snd_zip _ perm (le_of_eq hlen)
  refine ⟨?_, ?_, ?_, ?_⟩
  · rw [hfst]; exact unique_colors_nodup cells
  · intro t; rw [hfst]; exact mem_unique_colors cells t
  · rw [hsnd]; exact hperm
  · intro k h1 h2
    have hk : k ∈ List.range' 1 (scanCells cells).unique_colors.length :=
      List.mem_range'_1.mpr ⟨h1, by omega⟩
    have hcount : perm.count k = 1 := by
      rw [hperm.count_eq k]
      exact List.count_eq_one_of_mem (List.nodup_range' _ _) hk
    calc (out.color_map.filter (fun p => p.2 == k)).length
        = out.color_map.countP (fun p => p.2 == k) :=
          (List.countP_eq_length_filter _ _).symm
      _ = (out.color_map.map Prod.snd).countP (fun x => x == k) := by
          rw [List.countP_map]; rfl
      _ = perm.count k := by rw [hsnd, List.count_eq_countP]
      _ = 1 := hcount

/-- Witness for C6 at a concrete input: two colors, draw `[2, 1]`. -/
theorem color_map_bijection_witness :
    ([Cell.mk 0 0 "a" [], Cell.mk 0 1 "b" []] ≠ ([] : List Cell))
    ∧ ([2, 1].Perm (List.range' 1
        (scanCells [Cell.mk 0 0 "a" [], Cell.mk 0 1 "b" []]).unique_colors.length))
    ∧ ((convert_puzzle [2, 1] [Cell.mk 0 0 "a" [], Cell.mk 0 1 "b" []]
        = .ok ⟨[[(2, 0), (1, 0)]], [("a", 2), ("b", 1)]⟩))
    ∧ ((Puzzle.mk [[(2, 0), (1, 0)]] [("a", 2), ("b", 1)]).color_map.map Prod.fst).Nodup
    ∧ (∀ t, t ∈ (Puzzle.mk [[(2, 0), (1, 0)]] [("a", 2), ("b", 1)]).color_map.map Prod.fst
        ↔ t ∈ [Cell.mk 0 0 "a" [], Cell.mk 0 1 "b" []].map Cell.color)
    ∧ ((Puzzle.mk [[(2, 0), (1, 0)]] [("a", 2), ("b", 1)]).color_map.map Prod.snd).Perm
        (List.range' 1
          (scanCells [Cell.mk 0 0 "a" [], Cell.mk 0 1 "b" []]).unique_colors.length)
    ∧ ∀ k, 1 ≤ k →
        k ≤ (scanCells [Cell.mk 0 0 "a" [], Cell.mk 0 1 "b" []]).unique_colors.length →
        ((Puzzle.mk [[(2, 0), (1, 0)]] [("a", 2), ("b", 1)]).color_map.filter
          (fun p => p.2 == k)).length = 1 := by
  have h := color_map_bijection [2, 1] [Cell.mk 0 0 "a" [], Cell.mk 0 1 "b" []]
    ⟨[[(2, 0), (1, 0)]], [("a", 2), ("b", 1)]⟩ (by decide) (by decide) rfl
  exact ⟨by decide, by decide, rfl, h.1, h.2.1, h.2.2.1, h.2.2.2⟩

/-- Claim C8: for every cell sequence containing two records at the same
`(row, col)` (with non-negative coordinates throughout), the matrix entry at
that position carries the colorIndex of the last record at that position in
input order — last-write-wins — and its state field is 0. Here `c2` is the
later of the two records and no record after it targets the same position. -/
theorem convert_last_write_wins (perm : List Nat) (l1 l2 l3 : List Cell)
    (c1 c2 : Cell) (out : Puzzle)
    (hpos : c1.row = c2.row ∧ c1.col = c2.col)
    (hnn : ∀ c ∈ l1 ++ c1 :: l2 ++ c2 :: l3, 0 ≤ c.row ∧ 0 ≤ c.col)
    (hafter : ∀ d ∈ l3, ¬(d.row = c2.row ∧ d.col = c2.col))
    (hok : convert_puzzle perm (l1 ++ c1 :: l2 ++ c2 :: l3) = .ok out) :
    ∃ v, dlookup c2.color out.color_map = some v
      ∧ entryAt out.matrix c2.row.toNat c2.col.toNat = (v, 0) := by
  have hne : l1 ++ c1 :: l2 ++ c2 :: l3 ≠ [] := by simp
  obtain ⟨hw, hcm⟩ := convert_ok_parts perm _ out hne hok
  obtain ⟨hrect, hsome, hnone⟩ :=
    writeCells_last (cmapOf perm (l1 ++ c1 :: l2 ++ c2 :: l3)) _
      (rowsOf (l1 ++ c1 :: l2 ++ c2 :: l3)) (colsOf (l1 ++ c1 :: l2 ++ c2 :: l3))
      (initMatrix _) out.matrix (initMatrix_rect _) hw
  have hc2mem : c2 ∈ l1 ++ c1 :: l2 ++ c2 :: l3 := by simp
  have h2r := (hnn c2 hc2mem).1
  have h2c := (hnn c2 hc2mem).2
  have hbr := row_le_scan_max _ c2 hc2mem
  have hbc := col_le_scan_max _ c2 hc2mem
  have hi : c2.row.toNat < rowsOf (l1 ++ c1 :: l2 ++ c2 :: l3) := by unfold rowsOf; omega
  have hj : c2.col.toNat < colsOf (l1 ++ c1 :: l2 ++ c2 :: l3) := by unfold colsOf; omega
  have hfl3 : List.filter
      (fun d => writesAt (rowsOf (l1 ++ c1 :: l2 ++ c2 :: l3))
        (colsOf (l1 ++ c1 :: l2 ++ c2 :: l3)) d c2.row.toNat c2.col.toNat) l3 = [] := by
    rw [List.filter_eq_nil]
    intro d hd
    have hdm : d ∈ l1 ++ c1 :: l2 ++ c2 :: l3 := by simp [hd]
    rw [writesAt_nonneg _ d hdm (hnn d hdm).1 (hnn d hdm).2]
    intro hcon
    have h0r := (hnn d hdm).1
    have h0c := (hnn d hdm).2
    exact hafter d hd ⟨by omega, by omega⟩
  have hpc2 : writesAt (rowsOf (l1 ++ c1 :: l2 ++ c2 :: l3))
      (colsOf (l1 ++ c1 :: l2 ++ c2 :: l3)) c2 c2.row.toNat c2.col.toNat = true := by
    rw [writesAt_nonneg _ c2 hc2mem h2r h2c]
    exact ⟨rfl, rfl⟩
  have hsplit : l1 ++ c1 :: l2 ++ c2 :: l3 = (l1 ++ c1 :: l2) ++ (c2 :: l3) := by
    simp [List.append_assoc]
  have hlast : lastWriterAt (l1 ++ c1 :: l2 ++ c2 :: l3)
      (rowsOf (l1 ++ c1 :: l2 ++ c2 :: l3)) (colsOf (l1 ++ c1 :: l2 ++ c2 :: l3))
      c2.row.toNat c2.col.toNat = some c2 := by
    unfold lastWriterAt
    rw [show List.filter _ (l1 ++ c1 :: l2 ++ c2 :: l3)
        = List.filter _ ((l1 ++ c1 :: l2) ++ (c2 :: l3)) from by rw [← hsplit]]
    rw [List.filter_append, List.filter_cons, if_pos hpc2, hfl3]
    exact List.getLast?_concat _
  obtain ⟨v, hv, he⟩ := hsome _ _ hi hj c2 hlast
  refine ⟨v, ?_, he⟩
  rw [hcm]
  exact hv

/-- Witness for C8 at a concrete input: two records at `(0, 0)`; the later
record's color wins. -/
theorem convert_last_write_wins_witness :
    ((Cell.mk 0 0 "a" []).row = (Cell.mk 0 0 "b" []).row
      ∧ (Cell.mk 0 0 "a" []).col = (Cell.mk 0 0 "b" []).col)
    ∧ (∀ c ∈ [] ++ Cell.mk 0 0 "a" [] :: [] ++ Cell.mk 0 0 "b" [] :: [],
        0 ≤ c.row ∧ 0 ≤ c.col)
    ∧ convert_puzzle [1, 2] ([] ++ Cell.mk 0 0 "a" [] :: [] ++ Cell.mk 0 0 "b" [] :: [])
        = .ok ⟨[[(2, 0)]], [("a", 1), ("b", 2)]⟩
    ∧ ∃ v, dlookup (Cell.mk 0 0 "b" []).color
          (Puzzle.mk [[(2, 0)]] [("a", 1), ("b", 2)]).color_map = some v
        ∧ entryAt (Puzzle.mk [[(2, 0)]] [("a", 1), ("b", 2)]).matrix
            (Cell.mk 0 0 "b" []).row.toNat (Cell.mk 0 0 "b" []).col.toNat = (v, 0) := by
  refine ⟨by decide, by decide, rfl, ?_⟩
  exact convert_last_write_wins [1, 2] [] [] [] (Cell.mk 0 0 "a" []) (Cell.mk 0 0 "b" [])
    ⟨[[(2, 0)]], [("a", 1), ("b", 2)]⟩ (by decide) (by decide) (by decide) rfl

/-- Claim C7: for every cell sequence (the draws being permutations of `1..N`),
the partition of covered matrix positions by their assigned colorIndex equals
the partition of the cells that define them by colorToken: two covered
positions carry equal colorIndices iff their defining (last-written) records
carry equal color tokens. Consequently two conversions of the same sequence
agree up to a bijection between their colorIndex sets: a relabeling `f`, zero
on the unassigned sentinel and injective on `0..N`, carries the first matrix
pointwise onto the second. -/
theorem convert_partition_relabel (perm1 perm2 : List Nat) (cells : List Cell)
    (out1 out2 : Puzzle)
    (hp1 : perm1.Perm (List.range' 1 (scanCells cells).unique_colors.length))
    (hp2 : perm2.Perm (List.range' 1 (scanCells cells).unique_colors.length))
    (h1 : convert_puzzle perm1 cells = .ok out1)
    (h2 : convert_puzzle perm2 cells = .ok out2) :
    (∀ i j i' j', i < rowsOf cells → j < colsOf cells →
      i' < rowsOf cells → j' < colsOf cells →
      ∀ c c', lastWriterAt cells (rowsOf cells) (colsOf cells) i j = some c →
        lastWriterAt cells (rowsOf cells) (colsOf cells) i' j' = some c' →
        ((entryAt out1.matrix i j).1 = (entryAt out1.matrix i' j').1 ↔
          c.color = c'.color))
    ∧ ∃ f : Nat → Nat, f 0 = 0
        ∧ (∀ k, 1 ≤ k → k ≤ (scanCells cells).unique_colors.length →
            1 ≤ f k ∧ f k ≤ (scanCells cells).unique_colors.length)
        ∧ (∀ k1 k2, k1 ≤ (scanCells cells).unique_colors.length →
            k2 ≤ (scanCells cells).unique_colors.length → f k1 = f k2 → k1 = k2)
        ∧ out2.matrix = mapMat f out1.matrix := by
  by_cases hne : cells = []
  · subst hne
    have e1 : Puzzle.mk [] [] = out1 := Except.ok.inj h1
    have e2 : Puzzle.mk [] [] = out2 := Except.ok.inj h2
    refine ⟨fun i j i' j' _ _ _ _ c c' hc _ => ?_, fun k => k, rfl,
      fun k hk1 hk2 => ⟨hk1, hk2⟩, fun k1 k2 _ _ h => h, ?_⟩
    · simp [lastWriterAt] at hc
    · rw [← e1, ← e2]
      rfl
  · have hU := unique_colors_nodup cells
    have hlen1 : perm1.length = (scanCells cells).unique_colors.length := by
      rw [hp1.length_eq, List.length_range']
    have hlen2 : perm2.length = (scanCells cells).unique_colors.length := by
      rw [hp2.length_eq, List.length_range']
    have hn1 : perm1.Nodup := (hp1.nodup_iff).mpr (List.nodup_range' _ _)
    have hn2 : perm2.Nodup := (hp2.nodup_iff).mpr (List.nodup_range' _ _)
    obtain ⟨hw1, hcm1⟩ := convert_ok_parts perm1 cells out1 hne h1
    obtain ⟨hw2, hcm2⟩ := convert_ok_parts perm2 cells out2 hne h2
    obtain ⟨hrect1, hsome1, hnone1⟩ :=
      writeCells_last (cmapOf perm1 cells) cells (rowsOf cells) (colsOf cells)
        (initMatrix cells) out1.matrix (initMatrix_rect cells) hw1
    constructor
    · intro i j i' j' hi hj hi' hj' c c' hc hc'
      obtain ⟨v, hv, hev⟩ := hsome1 i j hi hj c hc
      obtain ⟨v', hv', hev'⟩ := hsome1 i' j' hi' hj' c' hc'
      rw [hev, hev']
      constructor
      · intro hvv
        have hvv2 : v = v' := hvv
        exact dlookup_zip_inj (scanCells cells).unique_colors perm1 hU hn1 hlen1.symm
          c.color c'.color v hv (by rw [← hvv2] at hv'; exact hv')
      · intro hcc
        have hsv : some v = some v' := by rw [← hv, ← hv', hcc]
        show v = v'
        exact Option.some_inj.mp hsv
    · refine ⟨relabelOf perm1 perm2, ?_, ?_, ?_, ?_⟩
      · refine relab_not_mem perm1 perm2 0 (fun h0 => ?_)
        have := List.mem_range'_1.mp (hp1.mem_iff.mp h0)
        omega
      · intro k hk1 hk2
        have hkp1 : k ∈ perm1 :=
          hp1.mem_iff.mpr (List.mem_range'_1.mpr ⟨hk1, by omega⟩)
        have := List.mem_range'_1.mp
          (hp2.mem_iff.mp (relab_mem perm1 perm2 k hkp1 (by omega)))
        omega
      · intro k1 k2 hk1 hk2 heq
        have hzero : ∀ k, k ≤ (scanCells cells).unique_colors.length → k ∉ perm1 →
            k = 0 := by
          intro k hk hkn
          by_contra h0
          exact hkn (hp1.mem_iff.mpr (List.mem_range'_1.mpr ⟨by omega, by omega⟩))
        by_cases m1 : k1 ∈ perm1 <;> by_cases m2 : k2 ∈ perm1
        · exact relab_inj_on_mem perm1 perm2 hn1 hn2 (by omega) k1 k2 m1 m2 heq
        · exfalso
          have hz2 : k2 = 0 := hzero k2 hk2 m2
          have hr1 := List.mem_range'_1.mp
            (hp2.mem_iff.mp (relab_mem perm1 perm2 k1 m1 (by omega)))
          rw [hz2, relab_not_mem perm1 perm2 0 (fun h0 => by
            have := List.mem_range'_1.mp (hp1.mem_iff.mp h0); omega)] at heq
          omega
        · exfalso
          have hz1 : k1 = 0 := hzero k1 hk1 m1
          have hr2 := List.mem_range'_1.mp
            (hp2.mem_iff.mp (relab_mem perm1 perm2 k2 m2 (by omega)))
          rw [hz1, relab_not_mem perm1 perm2 0 (fun h0 => by
            have := List.mem_range'_1.mp (hp1.mem_iff.mp h0); omega)] at heq
          omega
        · rw [hzero k1 hk1 m1, hzero k2 hk2 m2]
      · have hf0 : relabelOf perm1 perm2 0 = 0 :=
          relab_not_mem perm1 perm2 0 (fun h0 => by
            have := List.mem_range'_1.mp (hp1.mem_iff.mp h0); omega)
        have hcomp : ∀ t, dlookup t (cmapOf perm2 cells)
            = (dlookup t (cmapOf perm1 cells)).map (relabelOf perm1 perm2) := fun t =>
          dlookup_zip_relab (scanCells cells).unique_colors perm1 perm2 hn1
            hlen1.symm hlen2.symm t
        have hsim := writeCells_sim (cmapOf perm1 cells) (cmapOf perm2 cells)
          (relabelOf perm1 perm2) hcomp cells (initMatrix cells) out1.matrix hw1
        have hinit : mapMat (relabelOf perm1 perm2) (initMatrix cells) = initMatrix cells := by
          unfold mapMat initMatrix
          rw [List.map_replicate, List.map_replicate,
            show mapEntry (relabelOf perm1 perm2) ((0 : Nat), (0 : Int)) = ((0 : Nat), (0 : Int))
              from by simp [mapEntry, hf0]]
        rw [hinit] at hsim
        exact Except.ok.inj (hw2.symm.trans hsim)

/-- Witness for C7 at a concrete input: two colors, draws `[1, 2]` and `[2, 1]`. -/
theorem convert_partition_relabel_witness :
    ([1, 2].Perm (List.range' 1
      (scanCells [Cell.mk 0 0 "a" [], Cell.mk 0 1 "b" []]).unique_colors.length))
    ∧ ([2, 1].Perm (List.range' 1
      (scanCells [Cell.mk 0 0 "a" [], Cell.mk 0 1 "b" []]).unique_colors.length))
    ∧ convert_puzzle [1, 2] [Cell.mk 0 0 "a" [], Cell.mk 0 1 "b" []]
        = .ok ⟨[[(1, 0), (2, 0)]], [("a", 1), ("b", 2)]⟩
    ∧ convert_puzzle [2, 1] [Cell.mk 0 0 "a" [], Cell.mk 0 1 "b" []]
        = .ok ⟨[[(2, 0), (1, 0)]], [("a", 2), ("b", 1)]⟩
    ∧ ∃ f : Nat → Nat, f 0 = 0
        ∧ (∀ k, 1 ≤ k →
            k ≤ (scanCells [Cell.mk 0 0 "a" [], Cell.mk 0 1 "b" []]).unique_colors.length →
            1 ≤ f k ∧
              f k ≤ (scanCells [Cell.mk 0 0 "a" [], Cell.mk 0 1 "b" []]).unique_colors.length)
        ∧ (∀ k1 k2,
            k1 ≤ (scanCells [Cell.mk 0 0 "a" [], Cell.mk 0 1 "b" []]).unique_colors.length →
            k2 ≤ (scanCells [Cell.mk 0 0 "a" [], Cell.mk 0 1 "b" []]).unique_colors.length →
            f k1 = f k2 → k1 = k2)
        ∧ (Puzzle.mk [[(2, 0), (1, 0)]] [("a", 2), ("b", 1)]).matrix
            = mapMat f (Puzzle.mk [[(1, 0), (2, 0)]] [("a", 1), ("b", 2)]).matrix := by
  have h := convert_partition_relabel [1, 2] [2, 1]
    [Cell.mk 0 0 "a" [], Cell.mk 0 1 "b" []]
    ⟨[[(1, 0), (2, 0)]], [("a", 1), ("b", 2)]⟩
    ⟨[[(2, 0), (1, 0)]], [("a", 2), ("b", 1)]⟩
    (by decide) (by decide) rfl rfl
  exact ⟨by decide, by decide, rfl, rfl, h.2⟩

/-! Lemmas about the orchestrator loop. -/

theorem processLevel_fail (fetch : Nat → FetchOutcome) (perm : Nat → List Nat)
    (st : RunState) (lvl : Nat) (hf : stepFails fetch perm lvl = true) :
    processLevel fetch perm st lvl =
      { st with failures := st.failures ++ [(lvl, failReason fetch perm lvl)] } := by
  unfold processLevel failReason
  unfold stepFails at hf
  cases hfl : fetch lvl with
  | exn r => simp [hfl]
  | noContainer => simp [hfl]
  | ok cells =>
    simp only [hfl] at hf
    cases hcv : convert_puzzle (perm lvl) cells with
    | error e => simp [hfl, hcv]
    | ok pz => simp only [hcv] at hf; simp at hf

theorem processLevel_ok (fetch : Nat → FetchOutcome) (perm : Nat → List Nat)
    (st : RunState) (lvl : Nat) (hf : stepFails fetch perm lvl = false) :
    processLevel fetch perm st lvl =
      { st with
        pickle_data := insertKey st.pickle_data lvl (stepPuzzle fetch perm lvl)
        index_rows := st.index_rows ++
          [(lvl, imgPath lvl, jsonPath lvl, sizeStrOf (stepCells fetch lvl))]
        successes := st.successes ++ [lvl] } := by
  unfold processLevel stepPuzzle stepCells
  unfold stepFails at hf
  cases hfl : fetch lvl with
  | exn r => rw [hfl] at hf; cases hf
  | noContainer => rw [hfl] at hf; cases hf
  | ok cells =>
    simp only [hfl] at hf
    cases hcv : convert_puzzle (perm lvl) cells with
    | error e => simp only [hcv] at hf; simp at hf
    | ok pz => simp [hfl, hcv]

theorem foldl_successes (fetch : Nat → FetchOutcome) (perm : Nat → List Nat)
    (levels : List Nat) :
    ∀ st : RunState, (levels.foldl (processLevel fetch perm) st).successes
      = st.successes ++ levels.filter (fun l => !stepFails fetch perm l) := by
  induction levels with
  | nil => intro st; simp
  | cons l ls ih =>
    intro st
    rw [List.foldl_cons, ih, List.filter_cons]
    cases hf : stepFails fetch perm l with
    | true => simp [processLevel_fail fetch perm st l hf, hf]
    | false => simp [processLevel_ok fetch perm st l hf, hf]

theorem foldl_failures (fetch : Nat → FetchOutcome) (perm : Nat → List Nat)
    (levels : List Nat) :
    ∀ st : RunState, (levels.foldl (processLevel fetch perm) st).failures
      = st.failures ++ (levels.filter (fun l => stepFails fetch perm l)).map
          (fun l => (l, failReason fetch perm l)) := by
  induction levels with
  | nil => intro st; simp
  | cons l ls ih =>
    intro st
    rw [List.foldl_cons, ih, List.filter_cons]
    cases hf : stepFails fetch perm l with
    | true => simp [processLevel_fail fetch perm st l hf, hf]
    | false => simp [processLevel_ok fetch perm st l hf, hf]

theorem foldl_index_rows (fetch : Nat → FetchOutcome) (perm : Nat → List Nat)
    (levels : List Nat) :
    ∀ st : RunState, (levels.foldl (processLevel fetch perm) st).index_rows
      = st.index_rows ++ (levels.filter (fun l => !stepFails fetch perm l)).map
          (fun l => (l, imgPath l, jsonPath l, sizeStrOf (stepCells fetch l))) := by
  induction levels with
  | nil => intro st; simp
  | cons l ls ih =>
    intro st
    rw [List.foldl_cons, ih, List.filter_cons]
    cases hf : stepFails fetch perm l with
    | true => simp [processLevel_fail fetch perm st l hf, hf]
    | false => simp [processLevel_ok fetch perm st l hf, hf]

theorem foldl_pickle (fetch : Nat → FetchOutcome) (perm : Nat → List Nat)
    (levels : List Nat) :
    ∀ st : RunState, (levels.foldl (processLevel fetch perm) st).pickle_data
      = insertMany st.pickle_data ((levels.filter (fun l => !stepFails fetch perm l)).map
          (fun l => (l, stepPuzzle fetch perm l))) := by
  induction levels with
  | nil => intro st; simp [insertMany]
  | cons l ls ih =>
    intro st
    rw [List.foldl_cons, ih, List.filter_cons]
    cases hf : stepFails fetch perm l with
    | true => simp [processLevel_fail fetch perm st l hf, hf]
    | false => simp [processLevel_ok fetch perm st l hf, hf, insertMany]

/-! Lemmas about the in-memory pickle mapping. -/

theorem keyLookup_insertKey_self (d : List (Nat × Puzzle)) (k : Nat) (v : Puzzle) :
    keyLookup (insertKey d k v) k = some v := by
  induction d with
  | nil => simp [insertKey, keyLookup]
  | cons p d ih =>
    obtain ⟨k2, v2⟩ := p
    by_cases hk : k2 = k
    · simp [insertKey, keyLookup, hk]
    · simp [insertKey, keyLookup, hk, ih]

theorem keyLookup_insertKey_isSome (d : List (Nat × Puzzle)) (k k' : Nat) (v : Puzzle)
    (h : (keyLookup d k').isSome = true) :
    (keyLookup (insertKey d k v) k').isSome = true := by
  induction d with
  | nil => simp [keyLookup] at h
  | cons p d ih =>
    obtain ⟨k2, v2⟩ := p
    by_cases hk : k2 = k
    · subst hk
      by_cases hk' : k2 = k'
      · simp [insertKey, keyLookup, hk']
      · simp only [insertKey, if_pos rfl]
        simp only [keyLookup, if_neg hk'] at h ⊢
        exact h
    · simp only [insertKey, if_neg hk]
      by_cases hk' : k2 = k'
      · simp [keyLookup, hk']
      · simp only [keyLookup, if_neg hk'] at h ⊢
        exact ih h

theorem keyLookup_insertMany_isSome (items : List (Nat × Puzzle)) :
    ∀ d : List (Nat × Puzzle), ∀ k : Nat,
      (keyLookup d k).isSome = true ∨ k ∈ items.map Prod.fst →
      (keyLookup (insertMany d items) k).isSome = true := by
  induction items with
  | nil =>
    intro d k h
    rcases h with h | h
    · exact h
    · simp at h
  | cons p items ih =>
    intro d k h
    obtain ⟨k2, v2⟩ := p
    show (keyLookup (insertMany (insertKey d k2 v2) items) k).isSome = true
    rcases h with h | h
    · exact ih (insertKey d k2 v2) k (Or.inl (keyLookup_insertKey_isSome d k2 k v2 h))
    · rw [List.map_cons] at h
      rcases List.mem_cons.mp h with h | h
      · refine ih (insertKey d k2 v2) k (Or.inl ?_)
        rw [show k = k2 from h, keyLookup_insertKey_self]
        rfl
      · exact ih (insertKey d k2 v2) k (Or.inr h)

theorem insertKey_ne_nil (d : List (Nat × Puzzle)) (k : Nat) (v : Puzzle) :
    insertKey d k v ≠ [] := by
  cases d with
  | nil => simp [insertKey]
  | cons p d =>
    obtain ⟨k2, v2⟩ := p
    by_cases hk : k2 = k <;> simp [insertKey, hk]

theorem insertMany_eq_nil (items : List (Nat × Puzzle)) :
    ∀ d : List (Nat × Puzzle), insertMany d items = [] ↔ d = [] ∧ items = [] := by
  induction items with
  | nil => intro d; simp [insertMany]
  | cons p items ih =>
    intro d
    obtain ⟨k2, v2⟩ := p
    show insertMany (insertKey d k2 v2) items = [] ↔ _
    rw [ih (insertKey d k2 v2)]
    simp [insertKey_ne_nil]

/-! Claim theorems for the orchestrator. -/

/-- Claim C1: for every work set (without duplicate identifiers, as the
reconciliation produces), every identifier whose processing raises an
exception, hits a missing puzzle container, or fails conversion gets exactly
one failure entry `(identifier, reason)` and is excluded from the successes,
while every other identifier succeeds; the run processes all identifiers
(successes are exactly the non-failing ones in order), the staged ledger rows
list exactly the successes, and the staged store contains every success. -/
theorem orchestrator_failure_isolation (fetch : Nat → FetchOutcome)
    (perm : Nat → List Nat) (init : List (Nat × Puzzle)) (levels : List Nat)
    (hnd : levels.Nodup) :
    (download_puzzle fetch perm init levels).successes
        = levels.filter (fun l => !stepFails fetch perm l)
    ∧ (download_puzzle fetch perm init levels).failures
        = (levels.filter (fun l => stepFails fetch perm l)).map
            (fun l => (l, failReason fetch perm l))
    ∧ (∀ lvl ∈ levels, stepFails fetch perm lvl = true →
        ((download_puzzle fetch perm init levels).failures.filter
          (fun p => p.1 == lvl)).length = 1
        ∧ lvl ∉ (download_puzzle fetch perm init levels).successes)
    ∧ (∀ lvl ∈ levels, stepFails fetch perm lvl = false →
        lvl ∈ (download_puzzle fetch perm init levels).successes)
    ∧ ((download_puzzle fetch perm init levels).index_rows.map (fun r => r.1)
        = (download_puzzle fetch perm init levels).successes)
    ∧ (∀ lvl ∈ (download_puzzle fetch perm init levels).successes,
        (keyLookup (download_puzzle fetch perm init levels).pickle_data lvl).isSome
          = true) := by
  have hsucc : (download_puzzle fetch perm init levels).successes
      = levels.filter (fun l => !stepFails fetch perm l) := by
    have h := foldl_successes fetch perm levels ⟨[], [], [], init⟩
    simpa using h
  have hfail : (download_puzzle fetch perm init levels).failures
      = (levels.filter (fun l => stepFails fetch perm l)).map
          (fun l => (l, failReason fetch perm l)) := by
    have h := foldl_failures fetch perm levels ⟨[], [], [], init⟩
    simpa using h
  have hrows : (download_puzzle fetch perm init levels).index_rows
      = (levels.filter (fun l => !stepFails fetch perm l)).map
          (fun l => (l, imgPath l, jsonPath l, sizeStrOf (stepCells fetch l))) := by
    have h := foldl_index_rows fetch perm levels ⟨[], [], [], init⟩
    simpa using h
  have hpickle : (download_puzzle fetch perm init levels).pickle_data
      = insertMany init ((levels.filter (fun l => !stepFails fetch perm l)).map
          (fun l => (l, stepPuzzle fetch perm l))) := by
    have h := foldl_pickle fetch perm levels ⟨[], [], [], init⟩
    simpa using h
  refine ⟨hsucc, hfail, ?_, ?_, ?_, ?_⟩
  · intro lvl hlvl hf
    constructor
    · rw [hfail, List.filter_map]
      rw [show ((fun p : Nat × String => p.1 == lvl) ∘ fun l => (l, failReason fetch perm l))
          = fun l => l == lvl from rfl]
      rw [List.length_map, ← List.countP_eq_length_filter, ← List.count_eq_countP]
      exact List.count_eq_one_of_mem
        (hnd.filter (fun l => stepFails fetch perm l))
        (List.mem_filter.mpr ⟨hlvl, hf⟩)
    · rw [hsucc]
      intro hmem
      have := (List.mem_filter.mp hmem).2
      rw [hf] at this
      cases this
  · intro lvl hlvl hf
    rw [hsucc]
    exact List.mem_filter.mpr ⟨hlvl, by rw [hf]; rfl⟩
  · rw [hrows, hsucc, List.map_map]
    exact List.map_id' _
  · intro lvl hlvl
    rw [hpickle]
    refine keyLookup_insertMany_isSome _ init lvl (Or.inr ?_)
    rw [List.map_map]
    rw [hsucc] at hlvl
    simpa using hlvl

/-- Witness for C1: a work set of three identifiers where only the second
fails (the fetcher raises); the first and third succeed. -/
theorem orchestrator_failure_isolation_witness :
    ([1, 2, 3] : List Nat).Nodup
    ∧ ((download_puzzle
        (fun l => if l = 2 then .exn "boom" else .ok [Cell.mk 0 0 "red" []])
        (fun _ => [1]) [] [1, 2, 3]).successes = [1, 3])
    ∧ ((download_puzzle
        (fun l => if l = 2 then .exn "boom" else .ok [Cell.mk 0 0 "red" []])
        (fun _ => [1]) [] [1, 2, 3]).failures = [(2, "boom")])
    ∧ (((download_puzzle
        (fun l => if l = 2 then .exn "boom" else .ok [Cell.mk 0 0 "red" []])
        (fun _ => [1]) [] [1, 2, 3]).failures.filter (fun p => p.1 == 2)).length = 1)
    ∧ (2 ∉ (download_puzzle
        (fun l => if l = 2 then .exn "boom" else .ok [Cell.mk 0 0 "red" []])
        (fun _ => [1]) [] [1, 2, 3]).successes)
    ∧ ((download_puzzle
        (fun l => if l = 2 then .exn "boom" else .ok [Cell.mk 0 0 "red" []])
        (fun _ => [1]) [] [1, 2, 3]).index_rows.map (fun r => r.1) = [1, 3])
    ∧ ((keyLookup (download_puzzle
        (fun l => if l = 2 then .exn "boom" else .ok [Cell.mk 0 0 "red" []])
        (fun _ => [1]) [] [1, 2, 3]).pickle_data 1).isSome = true)
    ∧ ((keyLookup (download_puzzle
        (fun l => if l = 2 then .exn "boom" else .ok [Cell.mk 0 0 "red" []])
        (fun _ => [1]) [] [1, 2, 3]).pickle_data 3).isSome = true) := by
  have h := orchestrator_failure_isolation
    (fun l => if l = 2 then .exn "boom" else .ok [Cell.mk 0 0 "red" []])
    (fun _ => [1]) [] [1, 2, 3] (by decide)
  refine ⟨by decide, ?_, ?_, ?_, ?_, ?_, ?_, ?_⟩
  · exact h.1.trans (by rfl)
  · exact h.2.1.trans (by rfl)
  · exact (h.2.2.1 2 (by decide) rfl).1
  · exact (h.2.2.1 2 (by decide) rfl).2
  · exact (h.2.2.2.2.1).trans (h.1.trans (by rfl))
  · exact h.2.2.2.2.2 1 (by rw [h.1]; decide)
  · exact h.2.2.2.2.2 3 (by rw [h.1]; decide)

/-- Claim C2 counterexample: a run with zero successful acquisitions but a
non-empty prior store still flushes the store file (the source guards the
flush on `if pickle_data:` — non-emptiness of the merged mapping — not on
whether anything changed). -/
theorem store_flush_zero_success_counterexample :
    (download_puzzle (fun _ => .noContainer) (fun _ => [])
      [(5, ⟨[], []⟩)] [1]).successes = []
    ∧ (download_puzzle (fun _ => .noContainer) (fun _ => [])
      [(5, ⟨[], []⟩)] [1]).flushed = true :=
  ⟨rfl, rfl⟩

/-- Claim C2 amended: the keyed puzzle store is flushed at the end of a run
iff the merged in-memory mapping — the prior store entries plus this run's
successes — is non-empty. In particular a run with zero successes leaves the
store file untouched only when the prior store was empty; a non-empty prior
store is rewritten (with unchanged content) even on a run with zero
successes. -/
theorem store_flush_iff_nonempty (fetch : Nat → FetchOutcome) (perm : Nat → List Nat)
    (init : List (Nat × Puzzle)) (levels : List Nat) :
    (download_puzzle fetch perm init levels).flushed = true ↔
      (init ≠ [] ∨ (download_puzzle fetch perm init levels).successes ≠ []) := by
  have hsucc : (download_puzzle fetch perm init levels).successes
      = levels.filter (fun l => !stepFails fetch perm l) := by
    have h := foldl_successes fetch perm levels ⟨[], [], [], init⟩
    simpa using h
  have hpickle : (download_puzzle fetch perm init levels).pickle_data
      = insertMany init ((levels.filter (fun l => !stepFails fetch perm l)).map
          (fun l => (l, stepPuzzle fetch perm l))) := by
    have h := foldl_pickle fetch perm levels ⟨[], [], [], init⟩
    simpa using h
  have hfl : (download_puzzle fetch perm init levels).flushed
      = !(download_puzzle fetch perm init levels).pickle_data.isEmpty := by
    unfold download_puzzle
    rfl
  rw [hfl, hpickle, hsucc]
  rw [Bool.not_eq_true', ← Bool.not_eq_true]
  rw [List.isEmpty_iff]
  rw [insertMany_eq_nil]
  constructor
  · intro h
    by_cases hi : init = []
    · refine Or.inr (fun hs => h ⟨hi, ?_⟩)
      rw [hs]
      rfl
    · exact Or.inl hi
  · rintro (h | h) ⟨h1, h2⟩
    · exact h h1
    · exact h (by simpa using congrArg (List.map Prod.fst) h2)

/-! Claim theorems for the reconciliation and the structural extractor. -/

/-- Claim C9: for every ascending-sorted list of remote identifiers and every
existing ledger, missing-mode reconciliation returns exactly the remote
identifiers not recorded in the ledger — an identifier is in the result iff it
is remote and not in the ledger — and the result is sorted ascending. -/
theorem reconcile_missing (available existing : List Nat)
    (hs : available.Sorted (· < ·)) :
    (∀ l, l ∈ read_missing_levels (some existing) available ↔
      l ∈ available ∧ l ∉ existing)
    ∧ (read_missing_levels (some existing) available).Sorted (· < ·) := by
  constructor
  · intro l
    simp [read_missing_levels, List.mem_filter]
  · exact hs.filter _

/-- Witness for C9 at a concrete input: remote `[1, 2, 3]`, ledger `[2]`. -/
theorem reconcile_missing_witness :
    ([1, 2, 3] : List Nat).Sorted (· < ·)
    ∧ (∀ l, l ∈ read_missing_levels (some [2]) [1, 2, 3] ↔
        l ∈ [1, 2, 3] ∧ l ∉ [2])
    ∧ (read_missing_levels (some [2]) [1, 2, 3]).Sorted (· < ·) := by
  have h := reconcile_missing [1, 2, 3] [2] (by decide)
  exact ⟨by decide, h.1, h.2⟩

/-- Claim C10: extraction is not total over arbitrary markup. A puzzle-cell
element whose `data-row` attribute is present but not an integer literal makes
the structural extractor raise (Python `int` raises `ValueError`), while an
element with the attributes absent gets the `-1` defaults and extracts
normally. -/
theorem extract_nonint_attr_raises :
    html_to_json [⟨"div", ["square"], [("data-row", "abc"), ("data-col", "0")]⟩]
      = .error "invalid literal for int() with base 10: abc"
    ∧ html_to_json [⟨"div", ["square"], []⟩] = .ok [⟨-1, -1, "", []⟩] :=
  ⟨rfl, rfl⟩

end Scrape
